import Mathlib

set_option linter.unusedVariables false

/-!
Shallow embedding of the contact-scraping core of the repository:
`src/utils/email_utils.py` (class `EmailExtractor`) and
`src/utils/web_utils.py` (class `WebsiteAnalyzer`).

Python strings are modelled as Lean `String` / `List Char`; the Python
regular expressions used by the code are modelled by explicit
character-level matchers that follow the backtracking behaviour of
Python's `re` module on the concrete patterns appearing in the source.
Network effects (`requests.get`) are modelled by an oracle
`http : String → Option (Nat × String)` mapping a URL to a status code
and body, or `none` for a timeout / transport error (the exception path
of `requests.get`).  The random pacing delay (`time.sleep`) has no
effect on any returned value and is not modelled.

The file `web_utils.py` in the repository is truncated: it ends in the
middle of `_extract_social_media`, and `_find_contact_pages` /
`_analyze_contact_page` are missing entirely.  Those missing parts are
modelled from the spec, as noted on the corresponding definitions.
-/

/-- ASCII decimal digit: the characters kept by `re.sub(r'\D', '', ·)`
and matched by `\d` (for the ASCII inputs handled by this code). -/
def isDig (c : Char) : Bool := c.isDigit

/-- Python `str.split()` whitespace (ASCII part): space, tab, newline,
carriage return, vertical tab, form feed. -/
def isPyWs (c : Char) : Bool :=
  c == ' ' || c == '\t' || c == '\n' || c == '\r' || c == '\x0b' || c == '\x0c'

/-- Characters matched by the regex class `[-.\s]` used between phone
number groups. -/
def isSepCh (c : Char) : Bool :=
  c == '-' || c == '.' || isPyWs c

/-- Characters matched by the email local-part class `[a-zA-Z0-9._%+-]`. -/
def isLocalChar (c : Char) : Bool :=
  c.isAlpha || c.isDigit || c == '.' || c == '_' || c == '%' || c == '+' || c == '-'

/-- Characters matched by the email domain class `[a-zA-Z0-9.-]`. -/
def isDomainChar (c : Char) : Bool :=
  c.isAlpha || c.isDigit || c == '.' || c == '-'

/-- Lowercase ASCII letter, the class `[a-z]`. -/
def isLowerAl (c : Char) : Bool := 'a' ≤ c && c ≤ 'z'

/-- `isPre n h` holds when the list `n` is an initial segment of `h`. -/
def isPre : List Char → List Char → Bool
  | [], _ => true
  | _ :: _, [] => false
  | a :: as, b :: bs => a == b && isPre as bs

/-- Substring test, modelling Python's `needle in haystack` on strings. -/
def containsSub (needle : List Char) : List Char → Bool
  | [] => needle.isEmpty
  | c :: rest => isPre needle (c :: rest) || containsSub needle rest

/-- Python `s.split(sep)` for a one-character separator: returns `n + 1`
segments for `n` separator occurrences, keeping empty segments. -/
def splitOnChar (sep : Char) : List Char → List (List Char)
  | [] => [[]]
  | c :: rest =>
    let r := splitOnChar sep rest
    if c == sep then [] :: r
    else
      match r with
      | [] => [[c]]
      | h :: t => (c :: h) :: t

/-- Python `s.split()` with no separator: split on runs of whitespace,
dropping empty tokens. -/
def splitWsL : List Char → List (List Char)
  | [] => []
  | c :: rest =>
    if isPyWs c then splitWsL rest
    else
      match rest with
      | [] => [[c]]
      | c2 :: _ =>
        if isPyWs c2 then [c] :: splitWsL rest
        else
          match splitWsL rest with
          | [] => [[c]]
          | w :: ws => (c :: w) :: ws

/-- Python `s.split()` at the `String` level. -/
def splitWs (s : String) : List String :=
  (splitWsL s.toList).map String.mk

/-- Python `str.lower()` (ASCII range), character by character. -/
def pyLower (s : String) : String := String.mk (s.data.map Char.toLower)

/-- Index of the first occurrence of `a` in a list (length if absent). -/
def idxOf (a : String) : List String → Nat
  | [] => 0
  | b :: l => if b = a then 0 else idxOf a l + 1

/-- Number of occurrences of `c` in the first argument. -/
def countIn : List String → String → Nat
  | [], _ => 0
  | p :: ps, c => countIn ps c + (if p = c then 1 else 0)

/-- Maximum of `countIn ps` over the elements of the second argument. -/
def maxCountAux (ps : List String) : List String → Nat
  | [] => 0
  | c :: l => max (countIn ps c) (maxCountAux ps l)

/-- The maximal multiplicity of any element of `ps`. -/
def maxCount (ps : List String) : Nat := maxCountAux ps ps

/-- Deduplication keeping the FIRST occurrence of each element, in order
of first occurrence (the key order of a Python dict filled by iteration). -/
def firstDedup : List String → List String
  | [] => []
  | c :: l => c :: (firstDedup l).filter (fun x => !(decide (x = c)))

/-- First-biased choice on options. -/
def firstOf (a b : Option String) : Option String :=
  match a with
  | some x => some x
  | none => b

/-- The first `some` in a list of options. -/
def firstSome : List (Option String) → Option String
  | [] => none
  | o :: rest => firstOf o (firstSome rest)

/-- First-match lookup in an association list, i.e. the value a Python
dict built left to right without overwrites associates to `q`. -/
def lookupA (l : List (String × String)) (q : String) : Option String :=
  match l with
  | [] => none
  | (k, v) :: rest => if k = q then some v else lookupA rest q

/-! ### The email regex

`[a-zA-Z0-9._%+-]+@[a-zA-Z0-9.-]+\.[a-zA-Z]{2,}`, used (identically) by
`EmailExtractor.extract_emails_from_text` and
`WebsiteAnalyzer._extract_emails` via `re.findall`. -/

/-- Backtracking of `[a-zA-Z0-9.-]+\.[a-zA-Z]{2,}` inside the maximal run
of domain characters: the greedy `+` picks the LAST dot that is followed
by at least two ASCII letters; returns (part before the dot, the greedy
letter run after it, leftover of the domain run). -/
def bestTldSplit : List Char → Option (List Char × List Char × List Char)
  | [] => none
  | c :: rest =>
    match bestTldSplit rest with
    | some (d, t, l) => some (c :: d, t, l)
    | none =>
      if c == '.' then
        let t := rest.takeWhile Char.isAlpha
        if 2 ≤ t.length then some ([], t, rest.drop t.length) else none
      else none

/-- One attempt of the email regex anchored at the head of `cs`; on
success returns the matched text and the remainder of the input after
the match. -/
def matchEmailAt (cs : List Char) : Option (List Char × List Char) :=
  let loc := cs.takeWhile isLocalChar
  match cs.drop loc.length with
  | '@' :: rest2 =>
    if loc.isEmpty then none
    else
      let dom := rest2.takeWhile isDomainChar
      match bestTldSplit dom with
      | some (d, t, l) =>
        if d.isEmpty then none
        else some (loc ++ '@' :: d ++ '.' :: t, l ++ rest2.drop dom.length)
      | none => none
  | _ => none

/-- `re.findall` scan loop for the email regex: try a match at each
position, resume after the matched text.  The fuel starts at the input
length; every step consumes at least one character, so it never runs
out. -/
def findEmailsAux : Nat → List Char → List (List Char)
  | 0, _ => []
  | _, [] => []
  | fuel + 1, c :: rest =>
    match matchEmailAt (c :: rest) with
    | some (m, after) => m :: findEmailsAux fuel after
    | none => findEmailsAux fuel rest

/-- All (non-overlapping, leftmost) matches of the email regex. -/
def findEmails (cs : List Char) : List (List Char) :=
  findEmailsAux cs.length cs

/-! ### The phone regex

`(\+\d{1,3}[-.\s]?)?(\(?\d{3}\)?[-.\s]?\d{3}[-.\s]?\d{4})`, used by
`WebsiteAnalyzer._extract_phone_numbers` via `re.findall` (which yields
the pair of group texts). -/

/-- Exactly `n` ASCII digits from the head of the input. -/
def takeDigits : Nat → List Char → Option (List Char × List Char)
  | 0, cs => some ([], cs)
  | _ + 1, [] => none
  | n + 1, c :: cs =>
    if isDig c then (takeDigits n cs).map (fun dr => (c :: dr.1, dr.2)) else none

/-- Group 2 of the phone regex, `\(?\d{3}\)?[-.\s]?\d{3}[-.\s]?\d{4}`,
anchored at the head.  The three optional tokens never need
backtracking: not consuming them leads straight to a required digit,
which the optional character is not. -/
def matchGroup2 (cs : List Char) : Option (List Char × List Char) :=
  let (p1, cs1) :=
    match cs with
    | '(' :: r => (['('], r)
    | _ => (([] : List Char), cs)
  match takeDigits 3 cs1 with
  | none => none
  | some (d1, cs2) =>
    let (p2, cs3) :=
      match cs2 with
      | ')' :: r => ([')'], r)
      | _ => (([] : List Char), cs2)
    let (s1, cs4) :=
      match cs3 with
      | c :: r => if isSepCh c then ([c], r) else (([] : List Char), cs3)
      | [] => (([] : List Char), cs3)
    match takeDigits 3 cs4 with
    | none => none
    | some (d2, cs5) =>
      let (s2, cs6) :=
        match cs5 with
        | c :: r => if isSepCh c then ([c], r) else (([] : List Char), cs5)
        | [] => (([] : List Char), cs5)
      match takeDigits 4 cs6 with
      | none => none
      | some (d3, cs7) => some (p1 ++ d1 ++ p2 ++ s1 ++ d2 ++ s2 ++ d3, cs7)

/-- One attempt of the full phone regex anchored at the head: the
optional group 1 `\+\d{1,3}[-.\s]?` is tried greedily (3, then 2, then 1
digits); without a leading `+` only group 2 can match.  Returns the two
group texts and the remainder after the match. -/
def matchPhoneAt (cs : List Char) : Option ((List Char × List Char) × List Char) :=
  match cs with
  | '+' :: rest =>
    let tryK := fun (k : Nat) =>
      match takeDigits k rest with
      | none => none
      | some (d, r1) =>
        let (s, r2) :=
          match r1 with
          | c :: r => if isSepCh c then ([c], r) else (([] : List Char), r1)
          | [] => (([] : List Char), r1)
        match matchGroup2 r2 with
        | some (g2, r3) => some (('+' :: (d ++ s), g2), r3)
        | none => none
    match tryK 3 with
    | some x => some x
    | none =>
      match tryK 2 with
      | some x => some x
      | none =>
        match tryK 1 with
        | some x => some x
        | none => none
  | _ => (matchGroup2 cs).map (fun gr => (([], gr.1), gr.2))

/-- `re.findall` scan loop for the phone regex. -/
def findPhonesAux : Nat → List Char → List (List Char × List Char)
  | 0, _ => []
  | _, [] => []
  | fuel + 1, c :: rest =>
    match matchPhoneAt (c :: rest) with
    | some (m, after) => m :: findPhonesAux fuel after
    | none => findPhonesAux fuel rest

/-! ### `EmailExtractor` (src/utils/email_utils.py) -/

namespace EmailExtractor

/-- `extract_emails_from_text`: all regex matches, deduplicated by
`list(set(...))`.  A Python `set` enumerates in unspecified order; the
model fixes one duplicate-free enumeration of the same elements. -/
def extract_emails_from_text (text : String) : List String :=
  if text = "" then []
  else ((findEmails text.toList).map String.mk).dedup

/-- The per-email parsing step of `detect_email_pattern`: keep the
`(username, domain)` pairs of the emails whose `split('@')` has exactly
two parts, in input order. -/
def parsePairs (emails : List String) : List (List Char × List Char) :=
  emails.filterMap fun e =>
    match splitOnChar '@' e.toList with
    | [u, d] => some (u, d)
    | _ => none

/-- `re.match(r'^[a-z][a-z]{2,}$', u)` as a Boolean: at least three
lowercase ASCII letters and nothing else, where `$` also accepts a
single trailing newline. -/
def matchLowerWord (u : List Char) : Bool :=
  (3 ≤ u.length && u.all isLowerAl) ||
    (match u.getLast? with
     | some '\n' => 3 ≤ u.dropLast.length && u.dropLast.all isLowerAl
     | _ => false)

/-- The username classification of `detect_email_pattern`, first match
wins: dot, underscore, length at most 2, lowercase word, otherwise
unknown. -/
def classifyUsername (u : List Char) : String :=
  if u.contains '.' then "first.last"
  else if u.contains '_' then "first_last"
  else if u.length ≤ 2 then "initials"
  else if matchLowerWord u then "firstinitiallast"
  else "unknown"

/-- One step of filling the `pattern_counts` dict: increment the count
of `p` in place if the key exists, otherwise append it with count 1
(Python dicts keep insertion order). -/
def bump (p : String) : List (String × Nat) → List (String × Nat)
  | [] => [(p, 1)]
  | (k, n) :: rest => if k = p then (k, n + 1) :: rest else (k, n) :: bump p rest

/-- Python `max(items, key=lambda x: x[1])`: the first element attaining
the maximal count. -/
def maxByCount : List (String × Nat) → Option (String × Nat)
  | [] => none
  | x :: rest =>
    match maxByCount rest with
    | none => some x
    | some y => if x.2 < y.2 then some y else some x

/-- `detect_email_pattern`: `None` for fewer than two emails or an
ambiguous (non-unique) domain, otherwise the majority classification of
the usernames.  The `max` of an empty dict would raise in Python; that
branch is modelled as `none` and proved unreachable in `claim_c1`. -/
def detect_email_pattern (emails : List String) : Option String :=
  if emails.length < 2 then none
  else
    if (((parsePairs emails).map Prod.snd).dedup).length ≠ 1 then none
    else
      match maxByCount
          (((parsePairs emails).map fun ud => classifyUsername ud.1).foldl
            (fun acc p => bump p acc) []) with
      | some m => some m.1
      | none => none

/-- The username part of an email whose `split('@')` has exactly two
parts (`headD` of the split). -/
def localOf (e : String) : List Char := (splitOnChar '@' e.toList).headD []

/-- The domain part of an email whose `split('@')` has exactly two
parts (`getLastD` of the split). -/
def domOf (e : String) : List Char := (splitOnChar '@' e.toList).getLastD []

/-- The domain extraction of `generate_likely_email`:
`re.search(r'https?://(?:www\.)?([^/]+)', website)` anchored at one
position.  The optional `www.` backtracks: if consuming it leaves no
non-slash character for the group, it is left unconsumed. -/
def matchDomainAt (cs : List Char) : Option (List Char) :=
  let afterScheme :=
    if isPre "https://".toList cs then some (cs.drop 8)
    else if isPre "http://".toList cs then some (cs.drop 7)
    else none
  match afterScheme with
  | none => none
  | some rest =>
    let tryFrom := fun (r : List Char) =>
      let run := r.takeWhile (fun c => !(c == '/'))
      if run.isEmpty then none else some run
    match (if isPre "www.".toList rest then tryFrom (rest.drop 4) else none) with
    | some d => some d
    | none => tryFrom rest

/-- `re.search` scan for the domain regex: first position where it
matches. -/
def searchDomain : List Char → Option (List Char)
  | [] => none
  | c :: rest =>
    match matchDomainAt (c :: rest) with
    | some d => some d
    | none => searchDomain rest

/-- Domain of a website URL as `generate_likely_email` extracts it, or
`none` when the search fails. -/
def extract_domain (website : String) : Option String :=
  (searchDomain website.toList).map String.mk

/-- The lowercased whitespace tokens of a person's name,
`name.lower().split()`. -/
def nameParts (name : String) : List String := splitWs (pyLower name)

/-- The four pattern branches of `generate_likely_email`: the email
rendered for a detected concrete pattern, `none` for any other pattern
string (in particular `"unknown"`), which falls through to the default
candidates. -/
def patternEmail (p first last fi li domain : String) : Option String :=
  if p = "first.last" then some (first ++ "." ++ last ++ "@" ++ domain)
  else if p = "first_last" then some (first ++ "_" ++ last ++ "@" ++ domain)
  else if p = "initials" then some (fi ++ li ++ "@" ++ domain)
  else if p = "firstinitiallast" then some (fi ++ last ++ "@" ++ domain)
  else none

/-- The fixed ordered list `email_formats` rendered against the name
parts and domain. -/
def emailCandidates (first last fi li domain : String) : List String :=
  [first ++ "." ++ last ++ "@" ++ domain,
   fi ++ last ++ "@" ++ domain,
   first ++ "@" ++ domain,
   last ++ "@" ++ domain,
   fi ++ "." ++ last ++ "@" ++ domain,
   first ++ li ++ "@" ++ domain,
   first ++ "_" ++ last ++ "@" ++ domain]

/-- `generate_likely_email(name, company_name, company_website,
known_emails)`.  `company_name` is accepted and ignored, exactly as in
the source.  Python's `known_emails=None` default is modelled by
passing `[]`. -/
def generate_likely_email (name company_name company_website : String)
    (known_emails : List String) : Option String :=
  if name = "" ∨ name = "Unknown" ∨ company_website = "" then none
  else
    match extract_domain company_website with
    | none => none
    | some domain =>
      if (nameParts name).length < 2 then none
      else
        match
          (match known_emails with
           | [] => none
           | _ :: _ =>
             match detect_email_pattern known_emails with
             | some p =>
               patternEmail p ((nameParts name).headD "") ((nameParts name).getLastD "")
                 (((nameParts name).headD "").take 1) (((nameParts name).getLastD "").take 1)
                 domain
             | none => none) with
        | some e => some e
        | none =>
          match
            emailCandidates ((nameParts name).headD "") ((nameParts name).getLastD "")
              (((nameParts name).headD "").take 1) (((nameParts name).getLastD "").take 1)
              domain with
          | c :: _ => some c
          | [] => none

end EmailExtractor

/-! ### `WebsiteAnalyzer` (src/utils/web_utils.py) -/

/-- The contact record assembled by `analyze_website`: the three keys of
the `contact_info` dict.  `social_media` is an insertion-ordered
association list, modelling the Python dict. -/
structure ContactInfo where
  emails : List String
  phone_numbers : List String
  social_media : List (String × String)
deriving DecidableEq, Repr

namespace WebsiteAnalyzer

/-- The skip conditions of `_extract_emails`: an address is dropped when
it contains `@example`, `@domain` or `@email` (placeholder domains) or
`.jpg@`, `.png@` or `.gif@` (image false positives). -/
def keepEmail (e : List Char) : Bool :=
  !(containsSub "@example".toList e || containsSub "@domain".toList e ||
      containsSub "@email".toList e) &&
  !(containsSub ".jpg@".toList e || containsSub ".png@".toList e ||
      containsSub ".gif@".toList e)

/-- `_extract_emails`: regex matches in order, filtered; NOT
deduplicated. -/
def extract_emails (text : String) : List String :=
  if text = "" then []
  else ((findEmails text.toList).filter keepEmail).map String.mk

/-- `_extract_phone_numbers`: joined group texts of the phone regex
matches, in order, unnormalized. -/
def extract_phone_numbers (text : String) : List String :=
  if text = "" then []
  else (findPhonesAux text.toList.length text.toList).map fun m => String.mk (m.1 ++ m.2)

/-- The 10-digit rendering `(AAA) BBB-CCCC` of `_format_phone_number`. -/
def render10 (ds : List Char) : List Char :=
  '(' :: ds.take 3 ++ ')' :: ' ' :: ((ds.drop 3).take 3 ++ '-' :: ds.drop 6)

/-- The 11-digit rendering `+D (AAA) BBB-CCCC` of
`_format_phone_number`. -/
def render11 (ds : List Char) : List Char :=
  '+' :: ds.take 1 ++ ' ' :: '(' ::
    ((ds.drop 1).take 3 ++ ')' :: ' ' :: ((ds.drop 4).take 3 ++ '-' :: ds.drop 7))

/-- `_format_phone_number` on the character list: strip non-digits,
re-format when exactly 10 or 11 digits remain, otherwise return the
input unchanged. -/
def formatPhoneL (phone : List Char) : List Char :=
  if (phone.filter isDig).length = 10 then render10 (phone.filter isDig)
  else if (phone.filter isDig).length = 11 then render11 (phone.filter isDig)
  else phone

/-- `_format_phone_number` at the `String` level. -/
def format_phone_number (phone : String) : String :=
  String.mk (formatPhoneL phone.data)

/-- `_make_request`: the body for a status-200 response, `none` for any
other status and for the caught timeout / transport-error exception
(both `print` and return `None` in the source). -/
def make_request (http : String → Option (Nat × String)) (url : String) : Option String :=
  match http url with
  | some (status, body) => if status = 200 then some body else none
  | none => none

/-- Modelled from the spec: `_analyze_contact_page` is missing from the
truncated `web_utils.py`.  Per spec section 4.6 step 4 it fetches the
page (failure means no content for this page) and extracts emails,
phone numbers and social handles from it.  `socialEx` abstracts
`_extract_social_media`, whose body is cut off mid-function in the
source. -/
def analyze_contact_page (http : String → Option (Nat × String))
    (socialEx : String → List (String × String)) (url : String) : ContactInfo :=
  match make_request http url with
  | none => ⟨[], [], []⟩
  | some text => ⟨extract_emails text, extract_phone_numbers text, socialEx text⟩

/-- The social-media merge of the contact-page loop in
`analyze_website`: add an entry only when its platform key is absent
(`if platform not in contact_info["social_media"]`), preserving
insertion order. -/
def mergeFirstWins (cur : List (String × String)) : List (String × String) → List (String × String)
  | [] => cur
  | (p, h) :: rest =>
    if cur.any (fun kv => kv.1 = p) then mergeFirstWins cur rest
    else mergeFirstWins (cur ++ [(p, h)]) rest

/-- The body of the `for link in contact_links[:3]` loop of
`analyze_website`: extend the email and phone lists and merge the
social map first-wins. -/
def mergePage (http : String → Option (Nat × String))
    (socialEx : String → List (String × String)) (acc : ContactInfo) (link : String) :
    ContactInfo :=
  ⟨acc.emails ++ (analyze_contact_page http socialEx link).emails,
   acc.phone_numbers ++ (analyze_contact_page http socialEx link).phone_numbers,
   mergeFirstWins acc.social_media (analyze_contact_page http socialEx link).social_media⟩

/-- The contact-page loop of `analyze_website`: fold `mergePage` over
the (at most three) discovered links, starting from the root page's
extractions. -/
def aggregate (http : String → Option (Nat × String))
    (socialEx : String → List (String × String)) (links : List String) (base : ContactInfo) :
    ContactInfo :=
  links.foldl (mergePage http socialEx) base

/-- `analyze_website`.  `findContacts` abstracts `_find_contact_pages`
(missing from the truncated source; modelled from the spec as the
link-discovery capability taking the base URL and the page text).
Returns `none` for the bare `{}` that a falsy URL produces (a dict with
no contact fields at all), and `some record` otherwise.  The final
`list(set(...))` deduplications enumerate a Python set in unspecified
order; the model fixes one duplicate-free enumeration of the same
elements. -/
def analyze_website (http : String → Option (Nat × String))
    (findContacts : String → String → List String)
    (socialEx : String → List (String × String)) (website_url : String) :
    Option ContactInfo :=
  if website_url = "" then none
  else some <|
    match make_request http website_url with
    | none => ⟨[], [], []⟩
    | some text =>
      ⟨(aggregate http socialEx ((findContacts website_url text).take 3)
          ⟨extract_emails text, extract_phone_numbers text,
            mergeFirstWins [] (socialEx text)⟩).emails.dedup,
       ((aggregate http socialEx ((findContacts website_url text).take 3)
          ⟨extract_emails text, extract_phone_numbers text,
            mergeFirstWins [] (socialEx text)⟩).phone_numbers.map format_phone_number).dedup,
       (aggregate http socialEx ((findContacts website_url text).take 3)
          ⟨extract_emails text, extract_phone_numbers text,
            mergeFirstWins [] (socialEx text)⟩).social_media⟩

/-- The per-page social-handle association lists in the order the pages
are processed: root page first, then the (at most three) contact pages
in discovery order; empty when the root fetch fails. -/
def socialPages (http : String → Option (Nat × String))
    (findContacts : String → String → List String)
    (socialEx : String → List (String × String)) (website_url : String) :
    List (List (String × String)) :=
  match make_request http website_url with
  | none => []
  | some text =>
    socialEx text ::
      ((findContacts website_url text).take 3).map
        (fun l => (analyze_contact_page http socialEx l).social_media)

end WebsiteAnalyzer

/-- The digit-only reduction of a raw phone string, as performed by
`re.sub(r'\D', '', phone)`. -/
def digitsOf (s : String) : List Char := s.data.filter isDig

/-- Template table of spec section 4.5, stated from the spec's words:
`FirstDotLast → first.last@domain`, `FirstUnderscoreLast →
first_last@domain`, `Initials → firstInitial lastInitial@domain`,
`FirstInitialLast → firstInitial last@domain` (category names as the
code spells them). -/
def renderTemplate (p first last fi li domain : String) : String :=
  if p = "first.last" then first ++ "." ++ last ++ "@" ++ domain
  else if p = "first_last" then first ++ "_" ++ last ++ "@" ++ domain
  else if p = "initials" then fi ++ li ++ "@" ++ domain
  else if p = "firstinitiallast" then fi ++ last ++ "@" ++ domain
  else ""

/-! ## Lemmas about phone formatting (claim C6) -/

theorem drop3_take3_drop6 (ds : List Char) :
    (ds.drop 3).take 3 ++ ds.drop 6 = ds.drop 3 := by
  have h : ds.drop 6 = (ds.drop 3).drop 3 := by rw [List.drop_drop]
  rw [h, List.take_append_drop]

theorem render10_filter {ds : List Char} (h : ∀ c ∈ ds, isDig c = true) :
    (WebsiteAnalyzer.render10 ds).filter isDig = ds := by
  have h1 : (ds.take 3).filter isDig = ds.take 3 :=
    List.filter_eq_self.mpr fun c hc => h c (List.take_subset _ _ hc)
  have h2 : ((ds.drop 3).take 3).filter isDig = (ds.drop 3).take 3 :=
    List.filter_eq_self.mpr fun c hc => h c (List.drop_subset _ _ (List.take_subset _ _ hc))
  have h3 : (ds.drop 6).filter isDig = ds.drop 6 :=
    List.filter_eq_self.mpr fun c hc => h c (List.drop_subset _ _ hc)
  have e1 : isDig '(' = false := by decide
  have e2 : isDig ')' = false := by decide
  have e3 : isDig ' ' = false := by decide
  have e4 : isDig '-' = false := by decide
  simp only [WebsiteAnalyzer.render10, List.filter_cons, List.filter_append, e1, e2, e3, e4,
    if_false, Bool.false_eq_true, ite_false, h1, h2, h3]
  rw [drop3_take3_drop6, List.take_append_drop]

theorem render11_filter {ds : List Char} (h : ∀ c ∈ ds, isDig c = true) :
    (WebsiteAnalyzer.render11 ds).filter isDig = ds := by
  have h1 : (ds.take 1).filter isDig = ds.take 1 :=
    List.filter_eq_self.mpr fun c hc => h c (List.take_subset _ _ hc)
  have h2 : ((ds.drop 1).take 3).filter isDig = (ds.drop 1).take 3 :=
    List.filter_eq_self.mpr fun c hc => h c (List.drop_subset _ _ (List.take_subset _ _ hc))
  have h3 : ((ds.drop 4).take 3).filter isDig = (ds.drop 4).take 3 :=
    List.filter_eq_self.mpr fun c hc => h c (List.drop_subset _ _ (List.take_subset _ _ hc))
  have h4 : (ds.drop 7).filter isDig = ds.drop 7 :=
    List.filter_eq_self.mpr fun c hc => h c (List.drop_subset _ _ hc)
  have e1 : isDig '+' = false := by decide
  have e2 : isDig ' ' = false := by decide
  have e3 : isDig '(' = false := by decide
  have e4 : isDig ')' = false := by decide
  have e5 : isDig '-' = false := by decide
  have g1 : (ds.drop 4).take 3 ++ ds.drop 7 = ds.drop 4 := by
    have h' : ds.drop 7 = (ds.drop 4).drop 3 := by rw [List.drop_drop]
    rw [h', List.take_append_drop]
  have g2 : (ds.drop 1).take 3 ++ ds.drop 4 = ds.drop 1 := by
    have h' : ds.drop 4 = (ds.drop 1).drop 3 := by rw [List.drop_drop]
    rw [h', List.take_append_drop]
  simp only [WebsiteAnalyzer.render11, List.filter_cons, List.filter_append, e1, e2, e3, e4, e5,
    if_false, Bool.false_eq_true, ite_false, h1, h2, h3, h4]
  rw [g1, g2, List.take_append_drop]

theorem formatPhoneL_idem (p : List Char) :
    WebsiteAnalyzer.formatPhoneL (WebsiteAnalyzer.formatPhoneL p) =
      WebsiteAnalyzer.formatPhoneL p := by
  have hall : ∀ c ∈ p.filter isDig, isDig c = true := fun c hc => (List.mem_filter.mp hc).2
  by_cases h10 : (p.filter isDig).length = 10
  · have h1 : WebsiteAnalyzer.formatPhoneL p = WebsiteAnalyzer.render10 (p.filter isDig) := by
      unfold WebsiteAnalyzer.formatPhoneL
      rw [if_pos h10]
    rw [h1]
    unfold WebsiteAnalyzer.formatPhoneL
    rw [render10_filter hall, if_pos h10]
  · by_cases h11 : (p.filter isDig).length = 11
    · have h1 : WebsiteAnalyzer.formatPhoneL p = WebsiteAnalyzer.render11 (p.filter isDig) := by
        unfold WebsiteAnalyzer.formatPhoneL
        rw [if_neg h10, if_pos h11]
      rw [h1]
      unfold WebsiteAnalyzer.formatPhoneL
      rw [render11_filter hall, if_neg h10, if_pos h11]
    · have h1 : WebsiteAnalyzer.formatPhoneL p = p := by
        unfold WebsiteAnalyzer.formatPhoneL
        rw [if_neg h10, if_neg h11]
      rw [h1]
      exact h1

/-- C6: for every string, `_format_phone_number` is idempotent; a raw
phone reducing to exactly 10 digits is rendered `(AAA) BBB-CCCC`, one
reducing to exactly 11 digits is rendered `+D (AAA) BBB-CCCC` with the
first digit as country code, and any other digit count returns the
original string unchanged. -/
theorem claim_c6 :
    (∀ x : String,
      WebsiteAnalyzer.format_phone_number (WebsiteAnalyzer.format_phone_number x) =
        WebsiteAnalyzer.format_phone_number x) ∧
    (∀ x : String, (digitsOf x).length = 10 →
      WebsiteAnalyzer.format_phone_number x =
        String.mk ('(' :: (digitsOf x).take 3 ++ ')' :: ' ' ::
          (((digitsOf x).drop 3).take 3 ++ '-' :: (digitsOf x).drop 6))) ∧
    (∀ x : String, (digitsOf x).length = 11 →
      WebsiteAnalyzer.format_phone_number x =
        String.mk ('+' :: (digitsOf x).take 1 ++ ' ' :: '(' ::
          (((digitsOf x).drop 1).take 3 ++ ')' :: ' ' ::
            (((digitsOf x).drop 4).take 3 ++ '-' :: (digitsOf x).drop 7)))) ∧
    (∀ x : String, (digitsOf x).length ≠ 10 → (digitsOf x).length ≠ 11 →
      WebsiteAnalyzer.format_phone_number x = x) := by
  refine ⟨fun x => ?_, fun x h => ?_, fun x h => ?_, fun x h10 h11 => ?_⟩
  · exact congrArg String.mk (formatPhoneL_idem x.data)
  · simp only [digitsOf] at h ⊢
    unfold WebsiteAnalyzer.format_phone_number WebsiteAnalyzer.formatPhoneL
    rw [if_pos h]
    unfold WebsiteAnalyzer.render10
    rfl
  · simp only [digitsOf] at h ⊢
    have h10 : ¬ (x.data.filter isDig).length = 10 := by omega
    unfold WebsiteAnalyzer.format_phone_number WebsiteAnalyzer.formatPhoneL
    rw [if_neg h10, if_pos h]
    unfold WebsiteAnalyzer.render11
    rfl
  · simp only [digitsOf] at h10 h11
    unfold WebsiteAnalyzer.format_phone_number WebsiteAnalyzer.formatPhoneL
    rw [if_neg h10, if_neg h11]


theorem claim_c6_witness :
    WebsiteAnalyzer.format_phone_number "555-123-4567" = "(555) 123-4567" ∧
    WebsiteAnalyzer.format_phone_number (WebsiteAnalyzer.format_phone_number "+1 555.123.4567") =
      WebsiteAnalyzer.format_phone_number "+1 555.123.4567" ∧
    WebsiteAnalyzer.format_phone_number "12 345" = "12 345" :=
  ⟨(claim_c6.2.1 "555-123-4567" (by decide)).trans (by decide),
   claim_c6.1 "+1 555.123.4567",
   claim_c6.2.2.2 "12 345" (by decide) (by decide)⟩

/-- C10: `analyze_website` with the empty (falsy) URL returns the bare
`{}` holding no contact fields at all (modelled as `none`), while a
non-empty URL always produces a record with all three fields, even when
every fetch fails. -/
theorem claim_c10 :
    (∀ (http : String → Option (Nat × String)) (findC : String → String → List String)
        (socialEx : String → List (String × String)),
      WebsiteAnalyzer.analyze_website http findC socialEx "" = none) ∧
    (∀ (http : String → Option (Nat × String)) (findC : String → String → List String)
        (socialEx : String → List (String × String)) (url : String), url ≠ "" →
      ∃ r, WebsiteAnalyzer.analyze_website http findC socialEx url = some r) ∧
    (∀ (findC : String → String → List String)
        (socialEx : String → List (String × String)) (url : String), url ≠ "" →
      WebsiteAnalyzer.analyze_website (fun _ => none) findC socialEx url =
        some ⟨[], [], []⟩) := by
  refine ⟨fun http findC socialEx => ?_, fun http findC socialEx url h => ?_,
    fun findC socialEx url h => ?_⟩
  · unfold WebsiteAnalyzer.analyze_website
    rw [if_pos rfl]
  · unfold WebsiteAnalyzer.analyze_website
    rw [if_neg h]
    exact ⟨_, rfl⟩
  · unfold WebsiteAnalyzer.analyze_website
    rw [if_neg h]
    rfl

theorem claim_c10_witness :
    WebsiteAnalyzer.analyze_website (fun _ => none) (fun _ _ => []) (fun _ => [])
      "https://acme.com" = some ⟨[], [], []⟩ ∧
    WebsiteAnalyzer.analyze_website (fun _ => none) (fun _ _ => []) (fun _ => []) "" = none :=
  ⟨claim_c10.2.2 _ _ "https://acme.com" (by decide), claim_c10.1 _ _ _⟩

/-! ## Lemmas about the pattern detector preconditions (claim C5) -/

theorem parsePairs_mem {emails : List String} {e : String} (he : e ∈ emails)
    {u d : List Char} (hs : splitOnChar '@' e.toList = [u, d]) :
    (u, d) ∈ EmailExtractor.parsePairs emails := by
  unfold EmailExtractor.parsePairs
  refine List.mem_filterMap.mpr ⟨e, he, ?_⟩
  rw [hs]

theorem dedup_length_ne_one {α : Type} [DecidableEq α] {l : List α} {a b : α}
    (ha : a ∈ l) (hb : b ∈ l) (hab : a ≠ b) : l.dedup.length ≠ 1 := by
  intro h1
  obtain ⟨x, hx⟩ := List.length_eq_one.mp h1
  have ha' := List.mem_dedup.mpr ha
  have hb' := List.mem_dedup.mpr hb
  rw [hx, List.mem_singleton] at ha' hb'
  exact hab (ha'.trans hb'.symm)

/-- C5: `detect_email_pattern` returns the `None` sentinel whenever
fewer than 2 emails are supplied, and whenever the supplied emails span
more than one distinct domain; in particular
`detect(["a@x.com", "b@y.com"])` is `None`. -/
theorem claim_c5 :
    (∀ emails : List String, emails.length < 2 →
      EmailExtractor.detect_email_pattern emails = none) ∧
    (∀ (emails : List String) (e₁ e₂ : String) (u₁ d₁ u₂ d₂ : List Char),
      e₁ ∈ emails → e₂ ∈ emails →
      splitOnChar '@' e₁.toList = [u₁, d₁] → splitOnChar '@' e₂.toList = [u₂, d₂] →
      d₁ ≠ d₂ → EmailExtractor.detect_email_pattern emails = none) ∧
    EmailExtractor.detect_email_pattern ["a@x.com", "b@y.com"] = none := by
  refine ⟨fun emails h => ?_, fun emails e₁ e₂ u₁ d₁ u₂ d₂ h₁ h₂ hs₁ hs₂ hne => ?_, by decide⟩
  · unfold EmailExtractor.detect_email_pattern
    rw [if_pos h]
  · by_cases hlen : emails.length < 2
    · unfold EmailExtractor.detect_email_pattern
      rw [if_pos hlen]
    · unfold EmailExtractor.detect_email_pattern
      rw [if_neg hlen]
      have hd₁ : d₁ ∈ (EmailExtractor.parsePairs emails).map Prod.snd :=
        List.mem_map_of_mem Prod.snd (parsePairs_mem h₁ hs₁)
      have hd₂ : d₂ ∈ (EmailExtractor.parsePairs emails).map Prod.snd :=
        List.mem_map_of_mem Prod.snd (parsePairs_mem h₂ hs₂)
      rw [if_pos (dedup_length_ne_one hd₁ hd₂ hne)]

theorem claim_c5_witness :
    EmailExtractor.detect_email_pattern ["only@x.com"] = none ∧
    EmailExtractor.detect_email_pattern ["a@x.com", "b@y.com"] = none :=
  ⟨claim_c5.1 ["only@x.com"] (by decide),
   claim_c5.2.1 ["a@x.com", "b@y.com"] "a@x.com" "b@y.com" "a".toList "x.com".toList
     "b".toList "y.com".toList (by decide) (by decide) (by decide) (by decide) (by decide)⟩

/-! ## Lemmas about email extraction and filtering (claim C7) -/

theorem keepEmail_eq_true {e : List Char} (h : WebsiteAnalyzer.keepEmail e = true) :
    containsSub "@example".toList e = false ∧ containsSub "@domain".toList e = false ∧
    containsSub "@email".toList e = false ∧ containsSub ".jpg@".toList e = false ∧
    containsSub ".png@".toList e = false ∧ containsSub ".gif@".toList e = false := by
  unfold WebsiteAnalyzer.keepEmail at h
  simp only [Bool.and_eq_true, Bool.not_eq_true', Bool.or_eq_false_iff] at h
  exact ⟨h.1.1.1, h.1.1.2, h.1.2, h.2.1.1, h.2.1.2, h.2.2⟩

/-- C7 (amended): `_extract_emails` never returns an address containing
`@example`, `@domain`, `@email` (a domain STARTING with one of those
words), `.jpg@`, `.png@` or `.gif@` (a local part ending in an image
extension) — but it may return duplicates; deduplication instead
happens in `extract_emails_from_text`, which applies no filtering but
always returns a duplicate-free list. -/
theorem claim_c7 :
    (∀ (text e : String), e ∈ WebsiteAnalyzer.extract_emails text →
      containsSub "@example".toList e.toList = false ∧
      containsSub "@domain".toList e.toList = false ∧
      containsSub "@email".toList e.toList = false ∧
      containsSub ".jpg@".toList e.toList = false ∧
      containsSub ".png@".toList e.toList = false ∧
      containsSub ".gif@".toList e.toList = false) ∧
    (∀ text : String, (EmailExtractor.extract_emails_from_text text).Nodup) := by
  constructor
  · intro text e he
    unfold WebsiteAnalyzer.extract_emails at he
    by_cases ht : text = ""
    · rw [if_pos ht] at he
      cases he
    · rw [if_neg ht] at he
      obtain ⟨l, hl, rfl⟩ := List.mem_map.mp he
      have hk : WebsiteAnalyzer.keepEmail l = true := (List.mem_filter.mp hl).2
      have hmk : (String.mk l).toList = l := rfl
      rw [hmk]
      exact keepEmail_eq_true hk
  · intro text
    unfold EmailExtractor.extract_emails_from_text
    by_cases ht : text = ""
    · rw [if_pos ht]
      exact List.nodup_nil
    · rw [if_neg ht]
      exact List.nodup_dedup _

/-- C7 as originally stated is false: the web extractor can return the
same address twice (so its result is not a set), it returns addresses
whose domain merely CONTAINS `example` without starting with it, and
the email-utils extractor applies no placeholder filtering at all. -/
theorem claim_c7_counterexample :
    ¬ (WebsiteAnalyzer.extract_emails "a@b.com a@b.com").Nodup ∧
    WebsiteAnalyzer.extract_emails "mail a@subexample.com here" = ["a@subexample.com"] ∧
    containsSub "example".toList "subexample.com".toList = true ∧
    EmailExtractor.extract_emails_from_text "send to bob@example.org" = ["bob@example.org"] :=
  ⟨by decide, by decide, by decide, by decide⟩

theorem claim_c7_witness :
    containsSub "@example".toList "a@b.com".toList = false ∧
    containsSub ".jpg@".toList "a@b.com".toList = false ∧
    (EmailExtractor.extract_emails_from_text "a@b.com a@b.com").Nodup :=
  ⟨(claim_c7.1 "x a@b.com y" "a@b.com" (by decide)).1,
   (claim_c7.1 "x a@b.com y" "a@b.com" (by decide)).2.2.2.1,
   claim_c7.2 "a@b.com a@b.com"⟩

/-! ## Lemmas about the email synthesizer (claims C1, C2, C3) -/

theorem patternEmail_dot (f l fi li d : String) :
    EmailExtractor.patternEmail "first.last" f l fi li d = some (f ++ "." ++ l ++ "@" ++ d) := by
  unfold EmailExtractor.patternEmail
  rw [if_pos rfl]

theorem patternEmail_us (f l fi li d : String) :
    EmailExtractor.patternEmail "first_last" f l fi li d = some (f ++ "_" ++ l ++ "@" ++ d) := by
  unfold EmailExtractor.patternEmail
  rw [if_neg (by decide), if_pos rfl]

theorem patternEmail_in (f l fi li d : String) :
    EmailExtractor.patternEmail "initials" f l fi li d = some (fi ++ li ++ "@" ++ d) := by
  unfold EmailExtractor.patternEmail
  rw [if_neg (by decide), if_neg (by decide), if_pos rfl]

theorem patternEmail_fil (f l fi li d : String) :
    EmailExtractor.patternEmail "firstinitiallast" f l fi li d = some (fi ++ l ++ "@" ++ d) := by
  unfold EmailExtractor.patternEmail
  rw [if_neg (by decide), if_neg (by decide), if_neg (by decide), if_pos rfl]

theorem patternEmail_unknown (f l fi li d : String) :
    EmailExtractor.patternEmail "unknown" f l fi li d = none := by
  unfold EmailExtractor.patternEmail
  rw [if_neg (by decide), if_neg (by decide), if_neg (by decide), if_neg (by decide)]

theorem renderTemplate_dot (f l fi li d : String) :
    renderTemplate "first.last" f l fi li d = f ++ "." ++ l ++ "@" ++ d := by
  unfold renderTemplate
  rw [if_pos rfl]

theorem renderTemplate_us (f l fi li d : String) :
    renderTemplate "first_last" f l fi li d = f ++ "_" ++ l ++ "@" ++ d := by
  unfold renderTemplate
  rw [if_neg (by decide), if_pos rfl]

theorem renderTemplate_in (f l fi li d : String) :
    renderTemplate "initials" f l fi li d = fi ++ li ++ "@" ++ d := by
  unfold renderTemplate
  rw [if_neg (by decide), if_neg (by decide), if_pos rfl]

theorem renderTemplate_fil (f l fi li d : String) :
    renderTemplate "firstinitiallast" f l fi li d = fi ++ l ++ "@" ++ d := by
  unfold renderTemplate
  rw [if_neg (by decide), if_neg (by decide), if_neg (by decide), if_pos rfl]

theorem generate_early_none {name cn website : String} {ke : List String}
    (h : name = "" ∨ name = "Unknown" ∨ website = "") :
    EmailExtractor.generate_likely_email name cn website ke = none := by
  unfold EmailExtractor.generate_likely_email
  rw [if_pos h]

theorem generate_none_nodomain {name cn website : String} {ke : List String}
    (h : EmailExtractor.extract_domain website = none) :
    EmailExtractor.generate_likely_email name cn website ke = none := by
  by_cases he : name = "" ∨ name = "Unknown" ∨ website = ""
  · exact generate_early_none he
  · unfold EmailExtractor.generate_likely_email
    rw [if_neg he]
    simp only [h]

theorem generate_none_short {name cn website : String} {ke : List String}
    (h : (EmailExtractor.nameParts name).length < 2) :
    EmailExtractor.generate_likely_email name cn website ke = none := by
  by_cases he : name = "" ∨ name = "Unknown" ∨ website = ""
  · exact generate_early_none he
  · cases hd : EmailExtractor.extract_domain website with
    | none => exact generate_none_nodomain hd
    | some d =>
      unfold EmailExtractor.generate_likely_email
      rw [if_neg he]
      simp only [hd]
      rw [if_pos h]

theorem generate_main {name cn website : String} (ke : List String) {d : String}
    (hd : EmailExtractor.extract_domain website = some d)
    (h2 : 2 ≤ (EmailExtractor.nameParts name).length) :
    EmailExtractor.generate_likely_email name cn website ke =
      match
        (match ke with
         | [] => none
         | _ :: _ =>
           match EmailExtractor.detect_email_pattern ke with
           | some p =>
             EmailExtractor.patternEmail p ((EmailExtractor.nameParts name).headD "")
               ((EmailExtractor.nameParts name).getLastD "")
               (((EmailExtractor.nameParts name).headD "").take 1)
               (((EmailExtractor.nameParts name).getLastD "").take 1) d
           | none => none) with
      | some e => some e
      | none =>
        some (((EmailExtractor.nameParts name).headD "") ++ "." ++
          ((EmailExtractor.nameParts name).getLastD "") ++ "@" ++ d) := by
  have hn1 : ¬ name = "" := by
    rintro rfl
    revert h2
    decide
  have hn2 : ¬ name = "Unknown" := by
    rintro rfl
    revert h2
    decide
  have hw : ¬ website = "" := by
    rintro rfl
    rw [show EmailExtractor.extract_domain "" = none from rfl] at hd
    cases hd
  unfold EmailExtractor.generate_likely_email
  rw [if_neg (by simp [hn1, hn2, hw])]
  simp only [hd]
  rw [if_neg (Nat.not_lt.mpr h2)]
  simp only [EmailExtractor.emailCandidates]

/-- C3: the synthesizer returns the `cannot generate` sentinel (`None`)
whenever the name has fewer than two whitespace tokens or no hostname
can be extracted from the website URL; otherwise, when no concrete
pattern is detected from known emails, it deterministically returns the
first of the seven fixed candidate templates, `first.last@domain`; and
`synthesize(Person("Solo"), domain acme.com)` cannot generate. -/
theorem claim_c3 :
    (∀ (name cn website : String) (ke : List String),
      (EmailExtractor.nameParts name).length < 2 ∨
        EmailExtractor.extract_domain website = none →
      EmailExtractor.generate_likely_email name cn website ke = none) ∧
    (∀ (name cn website : String) (ke : List String) (d : String),
      EmailExtractor.extract_domain website = some d →
      2 ≤ (EmailExtractor.nameParts name).length →
      (ke = [] ∨ EmailExtractor.detect_email_pattern ke = none ∨
        EmailExtractor.detect_email_pattern ke = some "unknown") →
      EmailExtractor.generate_likely_email name cn website ke =
        some (((EmailExtractor.nameParts name).headD "") ++ "." ++
          ((EmailExtractor.nameParts name).getLastD "") ++ "@" ++ d)) ∧
    EmailExtractor.generate_likely_email "Solo" "Acme" "https://acme.com" [] = none := by
  refine ⟨fun name cn website ke h => ?_, fun name cn website ke d hd h2 hnp => ?_, by decide⟩
  · rcases h with h | h
    · exact generate_none_short h
    · exact generate_none_nodomain h
  · rw [generate_main ke hd h2]
    rcases hnp with rfl | hdet | hdet
    · rfl
    · cases ke with
      | nil => rfl
      | cons k ks => simp only [hdet]
    · cases ke with
      | nil => rfl
      | cons k ks => simp only [hdet, patternEmail_unknown]

theorem claim_c3_witness :
    EmailExtractor.generate_likely_email "Solo" "Acme" "https://acme.com" [] = none ∧
    EmailExtractor.generate_likely_email "Jane Doe" "Acme" "https://acme.com" [] =
      some "jane.doe@acme.com" :=
  ⟨claim_c3.1 "Solo" "Acme" "https://acme.com" [] (Or.inl (by decide)),
   (claim_c3.2.1 "Jane Doe" "Acme" "https://acme.com" [] "acme.com" (by decide) (by decide)
     (Or.inl rfl)).trans (by decide)⟩

/-- C2: when known emails are supplied and the pattern detector returns
a concrete category, the synthesizer renders that category's template
against the person's name parts and the domain extracted from the
website; in particular, for the Jane Doe example with domain `acme.com`
and known emails `j.s@acme.com`, `k.l@acme.com` it returns
`jane.doe@acme.com`. -/
theorem claim_c2 :
    ∀ (name cn website : String) (ke : List String) (d p : String),
      EmailExtractor.extract_domain website = some d →
      2 ≤ (EmailExtractor.nameParts name).length →
      EmailExtractor.detect_email_pattern ke = some p →
      (p = "first.last" ∨ p = "first_last" ∨ p = "initials" ∨ p = "firstinitiallast") →
      EmailExtractor.generate_likely_email name cn website ke =
        some (renderTemplate p ((EmailExtractor.nameParts name).headD "")
          ((EmailExtractor.nameParts name).getLastD "")
          (((EmailExtractor.nameParts name).headD "").take 1)
          (((EmailExtractor.nameParts name).getLastD "").take 1) d) := by
  intro name cn website ke d p hd h2 hp hc
  have hke : ke ≠ [] := by
    rintro rfl
    rw [show EmailExtractor.detect_email_pattern [] = none from by decide] at hp
    cases hp
  rw [generate_main ke hd h2]
  cases ke with
  | nil => exact absurd rfl hke
  | cons k ks =>
    simp only [hp]
    rcases hc with rfl | rfl | rfl | rfl <;>
      simp only [patternEmail_dot, patternEmail_us, patternEmail_in, patternEmail_fil,
        renderTemplate_dot, renderTemplate_us, renderTemplate_in, renderTemplate_fil]

theorem claim_c2_witness :
    EmailExtractor.generate_likely_email "Jane Doe" "Acme" "https://acme.com"
      ["j.s@acme.com", "k.l@acme.com"] = some "jane.doe@acme.com" :=
  (claim_c2 "Jane Doe" "Acme" "https://acme.com" ["j.s@acme.com", "k.l@acme.com"]
    "acme.com" "first.last" (by decide) (by decide) (by decide) (Or.inl rfl)).trans (by decide)

/-! ## Majority vote machinery (claims C1, C4) -/

theorem idxOf_cons (a b : String) (l : List String) :
    idxOf a (b :: l) = if b = a then 0 else idxOf a l + 1 := rfl

theorem countIn_le_maxCountAux (ps : List String) {c : String} :
    ∀ {l : List String}, c ∈ l → countIn ps c ≤ maxCountAux ps l := by
  intro l
  induction l with
  | nil => intro h; cases h
  | cons x xs ih =>
    intro h
    rcases List.mem_cons.mp h with rfl | h'
    · exact le_max_left _ _
    · exact le_trans (ih h') (le_max_right _ _)

theorem maxCountAux_le (ps : List String) {n : Nat} :
    ∀ {l : List String}, (∀ c ∈ l, countIn ps c ≤ n) → maxCountAux ps l ≤ n := by
  intro l
  induction l with
  | nil => intro _; exact Nat.zero_le n
  | cons x xs ih =>
    intro h
    exact max_le (h x (List.mem_cons_self _ _)) (ih fun c hc => h c (List.mem_cons_of_mem _ hc))

theorem mem_firstDedup {a : String} : ∀ {l : List String}, a ∈ firstDedup l ↔ a ∈ l := by
  intro l
  induction l with
  | nil => simp [firstDedup]
  | cons c l ih =>
    unfold firstDedup
    simp only [List.mem_cons, List.mem_filter]
    constructor
    · rintro (rfl | ⟨h, _⟩)
      · exact Or.inl rfl
      · exact Or.inr (ih.mp h)
    · rintro (rfl | h)
      · exact Or.inl rfl
      · by_cases hac : a = c
        · exact Or.inl hac
        · exact Or.inr ⟨ih.mpr h, by simp [hac]⟩

theorem firstDedup_ne_nil {l : List String} (h : l ≠ []) : firstDedup l ≠ [] := by
  cases l with
  | nil => exact absurd rfl h
  | cons c l => simp [firstDedup]

theorem idxOf_filter_le (q : String → Bool) :
    ∀ (l : List String) {a b : String}, a ∈ l.filter q → b ∈ l.filter q →
      idxOf a (l.filter q) ≤ idxOf b (l.filter q) → idxOf a l ≤ idxOf b l := by
  intro l
  induction l with
  | nil =>
    intro a b ha _ _
    simp at ha
  | cons c l ih =>
    intro a b ha hb hle
    by_cases hqc : q c = true
    · rw [List.filter_cons_of_pos hqc] at ha hb hle
      by_cases hca : c = a
      · rw [idxOf_cons, if_pos hca]
        exact Nat.zero_le _
      · by_cases hcb : c = b
        · have h1 : idxOf a (c :: l.filter q) = idxOf a (l.filter q) + 1 := by
            rw [idxOf_cons, if_neg hca]
          have h2 : idxOf b (c :: l.filter q) = 0 := by
            rw [idxOf_cons, if_pos hcb]
          rw [h1, h2] at hle
          exact absurd hle (by omega)
        · have h1 : idxOf a (c :: l.filter q) = idxOf a (l.filter q) + 1 := by
            rw [idxOf_cons, if_neg hca]
          have h2 : idxOf b (c :: l.filter q) = idxOf b (l.filter q) + 1 := by
            rw [idxOf_cons, if_neg hcb]
          rw [h1, h2] at hle
          have ha' : a ∈ l.filter q := by
            rcases List.mem_cons.mp ha with h | h
            · exact absurd h.symm hca
            · exact h
          have hb' : b ∈ l.filter q := by
            rcases List.mem_cons.mp hb with h | h
            · exact absurd h.symm hcb
            · exact h
          have hrec := ih ha' hb' (by omega)
          rw [idxOf_cons, if_neg hca, idxOf_cons, if_neg hcb]
          omega
    · have hqc' : q c = false := by simpa using hqc
      rw [List.filter_cons_of_neg hqc] at ha hb hle
      have hqa : q a = true := (List.mem_filter.mp ha).2
      have hqb : q b = true := (List.mem_filter.mp hb).2
      have hca : ¬ c = a := fun h => by rw [h, hqa] at hqc'; cases hqc'
      have hcb : ¬ c = b := fun h => by rw [h, hqb] at hqc'; cases hqc'
      rw [idxOf_cons, if_neg hca, idxOf_cons, if_neg hcb]
      have hrec := ih ha hb hle
      omega

theorem idxOf_firstDedup_le :
    ∀ (l : List String) {a b : String}, a ∈ firstDedup l → b ∈ firstDedup l →
      idxOf a (firstDedup l) ≤ idxOf b (firstDedup l) → idxOf a l ≤ idxOf b l := by
  intro l
  induction l with
  | nil =>
    intro a b ha _ _
    simp [firstDedup] at ha
  | cons c l ih =>
    intro a b ha hb hle
    unfold firstDedup at ha hb hle
    by_cases hca : c = a
    · rw [idxOf_cons, if_pos hca]
      exact Nat.zero_le _
    · by_cases hcb : c = b
      · have h1 : idxOf a (c :: (firstDedup l).filter (fun x => !(decide (x = c)))) =
            idxOf a ((firstDedup l).filter (fun x => !(decide (x = c)))) + 1 := by
          rw [idxOf_cons, if_neg hca]
        have h2 : idxOf b (c :: (firstDedup l).filter (fun x => !(decide (x = c)))) = 0 := by
          rw [idxOf_cons, if_pos hcb]
        rw [h1, h2] at hle
        exact absurd hle (by omega)
      · have ha' : a ∈ (firstDedup l).filter (fun x => !(decide (x = c))) := by
          rcases List.mem_cons.mp ha with h | h
          · exact absurd h.symm hca
          · exact h
        have hb' : b ∈ (firstDedup l).filter (fun x => !(decide (x = c))) := by
          rcases List.mem_cons.mp hb with h | h
          · exact absurd h.symm hcb
          · exact h
        have h1 : idxOf a (c :: (firstDedup l).filter (fun x => !(decide (x = c)))) =
            idxOf a ((firstDedup l).filter (fun x => !(decide (x = c)))) + 1 := by
          rw [idxOf_cons, if_neg hca]
        have h2 : idxOf b (c :: (firstDedup l).filter (fun x => !(decide (x = c)))) =
            idxOf b ((firstDedup l).filter (fun x => !(decide (x = c)))) + 1 := by
          rw [idxOf_cons, if_neg hcb]
        rw [h1, h2] at hle
        have hfd := idxOf_filter_le _ (firstDedup l) ha' hb' (by omega)
        have hrec := ih (List.mem_filter.mp ha').1 (List.mem_filter.mp hb').1 hfd
        rw [idxOf_cons, if_neg hca, idxOf_cons, if_neg hcb]
        omega

theorem maxByCount_mapped (f : String → Nat) :
    ∀ (ds : List String), ds ≠ [] →
      ∃ c, c ∈ ds ∧
        EmailExtractor.maxByCount (ds.map fun k => (k, f k)) = some (c, f c) ∧
        (∀ k ∈ ds, f k ≤ f c) ∧
        (∀ k ∈ ds, f k = f c → idxOf c ds ≤ idxOf k ds) := by
  intro ds
  induction ds with
  | nil => intro h; exact absurd rfl h
  | cons a ds ih =>
    intro _
    cases ds with
    | nil =>
      refine ⟨a, List.mem_cons_self _ _, rfl, ?_, ?_⟩
      · intro k hk
        rcases List.mem_cons.mp hk with rfl | hk
        · exact le_refl _
        · cases hk
      · intro k hk _
        rw [idxOf_cons, if_pos rfl]
        exact Nat.zero_le _
    | cons b ds' =>
      obtain ⟨c, hc_mem, hc_eq, hc_max, hc_tie⟩ := ih (by simp)
      by_cases hlt : f a < f c
      · refine ⟨c, List.mem_cons_of_mem _ hc_mem, ?_, ?_, ?_⟩
        · simp only [List.map_cons] at hc_eq ⊢
          rw [EmailExtractor.maxByCount, hc_eq]
          simp [hlt]
        · intro k hk
          rcases List.mem_cons.mp hk with rfl | hk'
          · exact le_of_lt hlt
          · exact hc_max k hk'
        · intro k hk hfk
          have hca : ¬ a = c := by
            intro h
            rw [h] at hlt
            exact lt_irrefl _ hlt
          rcases List.mem_cons.mp hk with rfl | hk'
          · exfalso
            omega
          · have hka : ¬ a = k := by
              intro h
              rw [h] at hlt
              omega
            have htie := hc_tie k hk' hfk
            have g1 : idxOf c (a :: b :: ds') = idxOf c (b :: ds') + 1 := by
              rw [idxOf_cons, if_neg hca]
            have g2 : idxOf k (a :: b :: ds') = idxOf k (b :: ds') + 1 := by
              rw [idxOf_cons, if_neg hka]
            rw [g1, g2]
            omega
      · refine ⟨a, List.mem_cons_self _ _, ?_, ?_, ?_⟩
        · simp only [List.map_cons] at hc_eq ⊢
          rw [EmailExtractor.maxByCount, hc_eq]
          simp [hlt]
        · intro k hk
          rcases List.mem_cons.mp hk with rfl | hk'
          · exact le_refl _
          · exact le_trans (hc_max k hk') (Nat.not_lt.mp hlt)
        · intro k hk _
          rw [idxOf_cons, if_pos rfl]
          exact Nat.zero_le _

theorem countIn_cons_self (ps : List String) (c : String) :
    countIn (c :: ps) c = countIn ps c + 1 := by
  simp [countIn]

theorem countIn_cons_ne {p c : String} (ps : List String) (h : p ≠ c) :
    countIn (p :: ps) c = countIn ps c := by
  simp [countIn, h]

theorem firstDedup_cons (c : String) (l : List String) :
    firstDedup (c :: l) = c :: (firstDedup l).filter (fun x => !(decide (x = c))) := rfl

theorem bump_not_mem {p : String} :
    ∀ {acc : List (String × Nat)}, p ∉ acc.map Prod.fst →
      EmailExtractor.bump p acc = acc ++ [(p, 1)] := by
  intro acc
  induction acc with
  | nil =>
    intro _
    rfl
  | cons kn rest ih =>
    intro h
    obtain ⟨k, n⟩ := kn
    simp only [List.map_cons, List.mem_cons] at h
    push_neg at h
    unfold EmailExtractor.bump
    rw [if_neg (fun hk => h.1 hk.symm), ih h.2]
    rfl

theorem bump_keys_mem {p : String} :
    ∀ {acc : List (String × Nat)}, p ∈ acc.map Prod.fst →
      (EmailExtractor.bump p acc).map Prod.fst = acc.map Prod.fst := by
  intro acc
  induction acc with
  | nil =>
    intro h
    simp at h
  | cons kn rest ih =>
    obtain ⟨k, n⟩ := kn
    intro h
    unfold EmailExtractor.bump
    by_cases hk : k = p
    · rw [if_pos hk]
      rfl
    · rw [if_neg hk]
      simp only [List.map_cons] at h ⊢
      have h' : p ∈ rest.map Prod.fst := by
        rcases List.mem_cons.mp h with h1 | h1
        · exact absurd h1.symm hk
        · exact h1
      rw [ih h']

theorem bump_map_counts (ps : List String) {p : String} :
    ∀ {acc : List (String × Nat)}, (acc.map Prod.fst).Nodup → p ∈ acc.map Prod.fst →
      (EmailExtractor.bump p acc).map (fun kn => (kn.1, kn.2 + countIn ps kn.1)) =
        acc.map (fun kn => (kn.1, kn.2 + countIn (p :: ps) kn.1)) := by
  intro acc
  induction acc with
  | nil =>
    intro _ h
    simp at h
  | cons kn rest ih =>
    obtain ⟨k, n⟩ := kn
    intro hnd hmem
    simp only [List.map_cons] at hnd hmem
    have hndk := List.nodup_cons.mp hnd
    unfold EmailExtractor.bump
    by_cases hk : k = p
    · rw [if_pos hk]
      simp only [List.map_cons]
      congr 1
      · subst hk
        simp only [Prod.mk.injEq, true_and]
        rw [countIn_cons_self]
        omega
      · apply List.map_congr_left
        intro kn hkn
        have hne : ¬ p = kn.1 := by
          subst hk
          intro he
          exact hndk.1 (he ▸ List.mem_map_of_mem Prod.fst hkn)
        rw [countIn_cons_ne ps hne]
    · rw [if_neg hk]
      simp only [List.map_cons]
      congr 1
      · simp only [Prod.mk.injEq, true_and]
        rw [countIn_cons_ne ps (fun h => hk h.symm)]
      · have h' : p ∈ rest.map Prod.fst := by
          rcases List.mem_cons.mp hmem with h1 | h1
          · exact absurd h1.symm hk
          · exact h1
        exact ih hndk.2 h'

theorem firstDedup_filter (r : String → Bool) :
    ∀ l : List String, firstDedup (l.filter r) = (firstDedup l).filter r := by
  intro l
  induction l with
  | nil => rfl
  | cons c l ih =>
    by_cases hrc : r c = true
    · rw [List.filter_cons_of_pos hrc, firstDedup_cons, firstDedup_cons,
        List.filter_cons_of_pos hrc, ih]
      congr 1
      rw [List.filter_filter, List.filter_filter]
      apply List.filter_congr
      intro a _
      rw [Bool.and_comm]
    · rw [List.filter_cons_of_neg hrc, firstDedup_cons, List.filter_cons_of_neg hrc, ih,
        List.filter_filter]
      apply List.filter_congr
      intro a _
      by_cases hac : a = c
      · subst hac
        have hrc' : r a = false := by simpa using hrc
        simp [hrc']
      · simp [hac]

theorem foldl_bump_eq (ps : List String) :
    ∀ (acc : List (String × Nat)), (acc.map Prod.fst).Nodup →
      ps.foldl (fun a p => EmailExtractor.bump p a) acc =
        acc.map (fun kn => (kn.1, kn.2 + countIn ps kn.1)) ++
          (firstDedup (ps.filter (fun x => !(decide (x ∈ acc.map Prod.fst))))).map
            (fun k => (k, countIn ps k)) := by
  induction ps with
  | nil =>
    intro acc _
    simp [countIn, firstDedup]
  | cons p ps ih =>
    intro acc hnd
    rw [List.foldl_cons]
    by_cases hmem : p ∈ acc.map Prod.fst
    · rw [ih (EmailExtractor.bump p acc) (by rw [bump_keys_mem hmem]; exact hnd),
        bump_map_counts ps hnd hmem, bump_keys_mem hmem]
      congr 1
      have hfc : (p :: ps).filter (fun x => !(decide (x ∈ acc.map Prod.fst))) =
          ps.filter (fun x => !(decide (x ∈ acc.map Prod.fst))) := by
        simp [List.filter_cons, hmem]
      rw [hfc]
      apply List.map_congr_left
      intro k hk
      have hknotin : ¬ k ∈ acc.map Prod.fst := by
        have := (List.mem_filter.mp (mem_firstDedup.mp hk)).2
        simpa using this
      have hpk : p ≠ k := fun h => hknotin (h ▸ hmem)
      rw [countIn_cons_ne ps hpk]
    · have hnd' : ((EmailExtractor.bump p acc).map Prod.fst).Nodup := by
        rw [bump_not_mem hmem]
        simp only [List.map_append, List.map_cons, List.map_nil]
        rw [List.nodup_append]
        refine ⟨hnd, List.nodup_singleton p, ?_⟩
        intro a ha hap
        rw [List.mem_singleton] at hap
        exact hmem (hap ▸ ha)
      rw [ih (EmailExtractor.bump p acc) hnd', bump_not_mem hmem]
      simp only [List.map_append, List.map_cons, List.map_nil]
      have hfc : (p :: ps).filter (fun x => !(decide (x ∈ acc.map Prod.fst))) =
          p :: ps.filter (fun x => !(decide (x ∈ acc.map Prod.fst))) := by
        simp [List.filter_cons, hmem]
      rw [hfc, firstDedup_cons, List.map_cons, List.append_assoc]
      congr 1
      · apply List.map_congr_left
        intro kn hkn
        have hne : ¬ p = kn.1 := fun h => hmem (h ▸ List.mem_map_of_mem Prod.fst hkn)
        simp only [Prod.mk.injEq, true_and]
        rw [countIn_cons_ne ps hne]
      · rw [List.singleton_append]
        congr 1
        · simp only [Prod.mk.injEq, true_and]
          rw [countIn_cons_self]
          omega
        · have hfilter : ps.filter (fun x => !(decide (x ∈ acc.map Prod.fst ++ [p]))) =
              (ps.filter (fun x => !(decide (x ∈ acc.map Prod.fst)))).filter
                (fun x => !(decide (x = p))) := by
            rw [List.filter_filter]
            apply List.filter_congr
            intro a _
            by_cases hap : a = p <;> by_cases hacc : a ∈ acc.map Prod.fst <;>
              simp [hap, hacc]
          rw [hfilter, firstDedup_filter]
          apply List.map_congr_left
          intro k hk
          have hkp : ¬ k = p := by
            have := (List.mem_filter.mp hk).2
            simpa using this
          simp only [Prod.mk.injEq, true_and]
          rw [countIn_cons_ne ps (fun h => hkp h.symm)]

theorem counts_eq (ps : List String) :
    ps.foldl (fun acc p => EmailExtractor.bump p acc) [] =
      (firstDedup ps).map (fun k => (k, countIn ps k)) := by
  rw [foldl_bump_eq ps [] (by simp)]
  simp

theorem parsePairs_eq {emails : List String}
    (hwf : ∀ e ∈ emails, (splitOnChar '@' e.toList).length = 2) :
    EmailExtractor.parsePairs emails =
      emails.map fun e => (EmailExtractor.localOf e, EmailExtractor.domOf e) := by
  induction emails with
  | nil => rfl
  | cons e es ih =>
    have h2 := hwf e (List.mem_cons_self _ _)
    obtain ⟨a, b, hab⟩ := List.length_eq_two.mp h2
    unfold EmailExtractor.parsePairs
    rw [List.filterMap_cons]
    simp only [hab]
    unfold EmailExtractor.parsePairs at ih
    rw [ih (fun x hx => hwf x (List.mem_cons_of_mem _ hx)), List.map_cons]
    congr 1
    unfold EmailExtractor.localOf EmailExtractor.domOf
    rw [hab]
    rfl

theorem dedup_length_one_of_all_eq {α : Type} [DecidableEq α] :
    ∀ {l : List α}, l ≠ [] → (∀ a ∈ l, ∀ b ∈ l, a = b) → l.dedup.length = 1 := by
  intro l
  induction l with
  | nil =>
    intro h _
    exact absurd rfl h
  | cons x xs ih =>
    intro _ hall
    cases xs with
    | nil => simp
    | cons y ys =>
      have hxy : x ∈ y :: ys := by
        have hx : x = y := hall x (by simp) y (by simp)
        rw [hx]
        exact List.mem_cons_self _ _
      rw [List.dedup_cons_of_mem hxy]
      exact ih (by simp)
        (fun a ha b hb => hall a (List.mem_cons_of_mem _ ha) b (List.mem_cons_of_mem _ hb))

theorem classify_mem (u : List Char) :
    EmailExtractor.classifyUsername u = "first.last" ∨
    EmailExtractor.classifyUsername u = "first_last" ∨
    EmailExtractor.classifyUsername u = "initials" ∨
    EmailExtractor.classifyUsername u = "firstinitiallast" ∨
    EmailExtractor.classifyUsername u = "unknown" := by
  unfold EmailExtractor.classifyUsername
  by_cases h1 : u.contains '.' = true
  · rw [if_pos h1]
    exact Or.inl rfl
  · rw [if_neg h1]
    by_cases h2 : u.contains '_' = true
    · rw [if_pos h2]
      exact Or.inr (Or.inl rfl)
    · rw [if_neg h2]
      by_cases h3 : u.length ≤ 2
      · rw [if_pos h3]
        exact Or.inr (Or.inr (Or.inl rfl))
      · rw [if_neg h3]
        by_cases h4 : EmailExtractor.matchLowerWord u = true
        · rw [if_pos h4]
          exact Or.inr (Or.inr (Or.inr (Or.inl rfl)))
        · rw [if_neg h4]
          exact Or.inr (Or.inr (Or.inr (Or.inr rfl)))

theorem maxByCount_mem : ∀ {l : List (String × Nat)} {x : String × Nat},
    EmailExtractor.maxByCount l = some x → x ∈ l := by
  intro l
  induction l with
  | nil =>
    intro x h
    cases h
  | cons a rest ih =>
    intro x h
    unfold EmailExtractor.maxByCount at h
    cases hr : EmailExtractor.maxByCount rest with
    | none =>
      simp only [hr] at h
      injection h with h'
      exact h' ▸ List.mem_cons_self a rest
    | some y =>
      simp only [hr] at h
      by_cases hlt : a.2 < y.2
      · rw [if_pos hlt] at h
        injection h with h'
        exact h' ▸ List.mem_cons_of_mem _ (ih hr)
      · rw [if_neg hlt] at h
        injection h with h'
        exact h' ▸ List.mem_cons_self a rest

theorem maxByCount_ne_none {l : List (String × Nat)} (h : l ≠ []) :
    EmailExtractor.maxByCount l ≠ none := by
  cases l with
  | nil => exact absurd rfl h
  | cons a rest =>
    unfold EmailExtractor.maxByCount
    cases hr : EmailExtractor.maxByCount rest with
    | none => simp [hr]
    | some y =>
      simp only [hr]
      split <;> simp

/-- C4: for every list of two or more emails that all parse as
`username@domain` with a single common domain, `detect_email_pattern`
returns a category that occurs among the priority-order classifications
of the local parts, whose count is maximal, and whose first occurrence
in the input's iteration order is no later than that of any other
maximal-count category (first-seen-wins tie-break); in particular
`detect(["a.b@x.com", "c.d@x.com"])` is `first.last` (the code's name
for FirstDotLast). -/
theorem claim_c4 :
    (∀ emails : List String, 2 ≤ emails.length →
      (∀ e ∈ emails, (splitOnChar '@' e.toList).length = 2) →
      (∀ e₁ ∈ emails, ∀ e₂ ∈ emails, EmailExtractor.domOf e₁ = EmailExtractor.domOf e₂) →
      ∃ c, EmailExtractor.detect_email_pattern emails = some c ∧
        c ∈ emails.map (fun e => EmailExtractor.classifyUsername (EmailExtractor.localOf e)) ∧
        countIn (emails.map fun e => EmailExtractor.classifyUsername (EmailExtractor.localOf e))
            c =
          maxCount
            (emails.map fun e => EmailExtractor.classifyUsername (EmailExtractor.localOf e)) ∧
        (∀ c' ∈ emails.map fun e => EmailExtractor.classifyUsername (EmailExtractor.localOf e),
          countIn (emails.map fun e => EmailExtractor.classifyUsername (EmailExtractor.localOf e))
              c' =
            maxCount
              (emails.map fun e =>
                EmailExtractor.classifyUsername (EmailExtractor.localOf e)) →
          idxOf c
              (emails.map fun e => EmailExtractor.classifyUsername (EmailExtractor.localOf e)) ≤
            idxOf c'
              (emails.map fun e =>
                EmailExtractor.classifyUsername (EmailExtractor.localOf e)))) ∧
    EmailExtractor.detect_email_pattern ["a.b@x.com", "c.d@x.com"] = some "first.last" := by
  constructor
  · intro emails hlen hwf hone
    have hpp := parsePairs_eq hwf
    have hps : (EmailExtractor.parsePairs emails).map
        (fun ud => EmailExtractor.classifyUsername ud.1) =
        emails.map fun e => EmailExtractor.classifyUsername (EmailExtractor.localOf e) := by
      rw [hpp, List.map_map]
      rfl
    have hne : emails ≠ [] := by
      intro h
      rw [h] at hlen
      exact absurd hlen (by decide)
    have hdedup : (((EmailExtractor.parsePairs emails).map Prod.snd).dedup).length = 1 := by
      have hdoms : (EmailExtractor.parsePairs emails).map Prod.snd =
          emails.map EmailExtractor.domOf := by
        rw [hpp, List.map_map]
        rfl
      rw [hdoms]
      apply dedup_length_one_of_all_eq
      · intro h
        exact hne (List.map_eq_nil_iff.mp h)
      · intro a ha b hb
        obtain ⟨e₁, he₁, he₁'⟩ := List.mem_map.mp ha
        obtain ⟨e₂, he₂, he₂'⟩ := List.mem_map.mp hb
        rw [← he₁', ← he₂']
        exact hone e₁ he₁ e₂ he₂
    have hpsne :
        (emails.map fun e => EmailExtractor.classifyUsername (EmailExtractor.localOf e)) ≠
          [] := by
      intro h
      exact hne (List.map_eq_nil_iff.mp h)
    obtain ⟨c, hcmem, hceq, hcmax, hctie⟩ :=
      maxByCount_mapped
        (countIn (emails.map fun e => EmailExtractor.classifyUsername (EmailExtractor.localOf e)))
        (firstDedup
          (emails.map fun e => EmailExtractor.classifyUsername (EmailExtractor.localOf e)))
        (firstDedup_ne_nil hpsne)
    have hcm : countIn
        (emails.map fun e => EmailExtractor.classifyUsername (EmailExtractor.localOf e)) c =
        maxCount
          (emails.map fun e => EmailExtractor.classifyUsername (EmailExtractor.localOf e)) := by
      refine le_antisymm ?_ ?_
      · exact countIn_le_maxCountAux _ (mem_firstDedup.mp hcmem)
      · exact maxCountAux_le _ (fun c' hc' => hcmax c' (mem_firstDedup.mpr hc'))
    refine ⟨c, ?_, mem_firstDedup.mp hcmem, hcm, ?_⟩
    · unfold EmailExtractor.detect_email_pattern
      rw [if_neg (Nat.not_lt.mpr hlen), if_neg (fun h => h hdedup), hps, counts_eq, hceq]
    · intro c' hc' hmaxc'
      have hc'fd := mem_firstDedup.mpr hc'
      have hfk : countIn
          (emails.map fun e => EmailExtractor.classifyUsername (EmailExtractor.localOf e)) c' =
          countIn
            (emails.map fun e => EmailExtractor.classifyUsername (EmailExtractor.localOf e))
            c := by
        rw [hmaxc', hcm]
      exact idxOf_firstDedup_le _ hcmem hc'fd (hctie c' hc'fd hfk)
  · decide

theorem claim_c4_witness :
    ∃ c, EmailExtractor.detect_email_pattern ["a.b@x.com", "c.d@x.com"] = some c ∧
      c = "first.last" := by
  obtain ⟨c, hc, _⟩ := claim_c4.1 ["a.b@x.com", "c.d@x.com"] (by decide) (by decide) (by decide)
  exact ⟨c, hc, Option.some.inj (hc.symm.trans claim_c4.2)⟩

/-- C1: the core is total on its inputs: pattern detection always
returns one of the five categories or the `None` sentinel (for every
list of strings, well-formed or not); the `max` over the pattern-count
dict is never taken over an empty dict when the single-domain check has
passed (the only spot where the Python could raise); the ambiguous
synthesizer inputs (too few name tokens, unparseable domain) produce
the `cannot generate` sentinel rather than an error; and
`analyze_website` always returns a contact record value. -/
theorem claim_c1 :
    (∀ emails : List String,
      EmailExtractor.detect_email_pattern emails = none ∨
      ∃ c, EmailExtractor.detect_email_pattern emails = some c ∧
        (c = "first.last" ∨ c = "first_last" ∨ c = "initials" ∨
          c = "firstinitiallast" ∨ c = "unknown")) ∧
    (∀ emails : List String,
      (((EmailExtractor.parsePairs emails).map Prod.snd).dedup).length = 1 →
      EmailExtractor.maxByCount
        (((EmailExtractor.parsePairs emails).map fun ud =>
          EmailExtractor.classifyUsername ud.1).foldl
            (fun acc p => EmailExtractor.bump p acc) []) ≠ none) ∧
    (∀ (name cn website : String) (ke : List String),
      (EmailExtractor.nameParts name).length < 2 →
      EmailExtractor.generate_likely_email name cn website ke = none) ∧
    (∀ (name cn website : String) (ke : List String),
      EmailExtractor.extract_domain website = none →
      EmailExtractor.generate_likely_email name cn website ke = none) ∧
    (∀ (http : String → Option (Nat × String)) (findC : String → String → List String)
        (socialEx : String → List (String × String)) (url : String),
      WebsiteAnalyzer.analyze_website http findC socialEx url = none ∨
      ∃ r, WebsiteAnalyzer.analyze_website http findC socialEx url = some r) := by
  refine ⟨fun emails => ?_, fun emails h1 => ?_, fun name cn website ke h => ?_,
    fun name cn website ke h => ?_, fun http findC socialEx url => ?_⟩
  · by_cases hlen : emails.length < 2
    · left
      unfold EmailExtractor.detect_email_pattern
      rw [if_pos hlen]
    · by_cases hdom : (((EmailExtractor.parsePairs emails).map Prod.snd).dedup).length ≠ 1
      · left
        unfold EmailExtractor.detect_email_pattern
        rw [if_neg hlen, if_pos hdom]
      · cases hmax : EmailExtractor.maxByCount
            (((EmailExtractor.parsePairs emails).map fun ud =>
              EmailExtractor.classifyUsername ud.1).foldl
                (fun acc p => EmailExtractor.bump p acc) []) with
        | none =>
          left
          unfold EmailExtractor.detect_email_pattern
          rw [if_neg hlen, if_neg hdom]
          simp only [hmax]
        | some m =>
          right
          refine ⟨m.1, ?_, ?_⟩
          · unfold EmailExtractor.detect_email_pattern
            rw [if_neg hlen, if_neg hdom]
            simp only [hmax]
          · have hm := maxByCount_mem hmax
            rw [counts_eq] at hm
            obtain ⟨k, hk, hkm⟩ := List.mem_map.mp hm
            have hmk : m.1 = k := by rw [← hkm]
            rw [hmk]
            obtain ⟨ud, hud, hudk⟩ := List.mem_map.mp (mem_firstDedup.mp hk)
            rw [← hudk]
            exact classify_mem ud.1
  · have hppne : EmailExtractor.parsePairs emails ≠ [] := by
      intro h
      rw [h] at h1
      exact absurd h1 (by decide)
    have hmapne : ((EmailExtractor.parsePairs emails).map fun ud =>
        EmailExtractor.classifyUsername ud.1) ≠ [] := by
      intro h
      exact hppne (List.map_eq_nil_iff.mp h)
    rw [counts_eq]
    apply maxByCount_ne_none
    intro h
    exact firstDedup_ne_nil hmapne (List.map_eq_nil_iff.mp h)
  · exact generate_none_short h
  · exact generate_none_nodomain h
  · by_cases hurl : url = ""
    · left
      unfold WebsiteAnalyzer.analyze_website
      rw [if_pos hurl]
    · right
      unfold WebsiteAnalyzer.analyze_website
      rw [if_neg hurl]
      exact ⟨_, rfl⟩

theorem claim_c1_witness :
    EmailExtractor.generate_likely_email "Solo" "Acme" "https://acme.com" [] = none ∧
    EmailExtractor.generate_likely_email "Jane Doe" "Acme" "acme.com" [] = none ∧
    EmailExtractor.maxByCount
      (((EmailExtractor.parsePairs ["a@x.com", "b@x.com"]).map fun ud =>
        EmailExtractor.classifyUsername ud.1).foldl
          (fun acc p => EmailExtractor.bump p acc) []) ≠ none :=
  ⟨claim_c1.2.2.1 "Solo" "Acme" "https://acme.com" [] (by decide),
   claim_c1.2.2.2.1 "Jane Doe" "Acme" "acme.com" [] (by decide),
   claim_c1.2.1 ["a@x.com", "b@x.com"] (by decide)⟩

/-! ## Lemmas about the crawl aggregation (claims C8, C9) -/

theorem firstOf_none_right (a : Option String) : firstOf a none = a := by
  cases a <;> rfl

theorem firstOf_assoc (a b c : Option String) :
    firstOf (firstOf a b) c = firstOf a (firstOf b c) := by
  cases a <;> rfl

theorem lookupA_cons (k v : String) (rest : List (String × String)) (q : String) :
    lookupA ((k, v) :: rest) q = if k = q then some v else lookupA rest q := rfl

theorem lookupA_append (l₁ l₂ : List (String × String)) (q : String) :
    lookupA (l₁ ++ l₂) q = firstOf (lookupA l₁ q) (lookupA l₂ q) := by
  induction l₁ with
  | nil => rfl
  | cons kv rest ih =>
    obtain ⟨k, v⟩ := kv
    rw [List.cons_append, lookupA_cons, lookupA_cons]
    by_cases h : k = q
    · rw [if_pos h, if_pos h]
      rfl
    · rw [if_neg h, if_neg h, ih]

theorem any_eq_lookupA_isSome (cur : List (String × String)) (p : String) :
    cur.any (fun kv => kv.1 = p) = (lookupA cur p).isSome := by
  induction cur with
  | nil => rfl
  | cons kv rest ih =>
    obtain ⟨k, v⟩ := kv
    rw [List.any_cons, lookupA_cons]
    by_cases h : k = p
    · simp [h]
    · simp [h, ih]

theorem lookupA_mergeFirstWins :
    ∀ (new cur : List (String × String)) (q : String),
      lookupA (WebsiteAnalyzer.mergeFirstWins cur new) q =
        firstOf (lookupA cur q) (lookupA new q) := by
  intro new
  induction new with
  | nil =>
    intro cur q
    rw [show WebsiteAnalyzer.mergeFirstWins cur [] = cur from rfl]
    exact (firstOf_none_right _).symm
  | cons kv rest ih =>
    intro cur q
    obtain ⟨p, h⟩ := kv
    unfold WebsiteAnalyzer.mergeFirstWins
    by_cases hA : cur.any (fun kv => kv.1 = p) = true
    · rw [if_pos hA, ih, lookupA_cons]
      by_cases hq : p = q
      · subst hq
        rw [any_eq_lookupA_isSome] at hA
        obtain ⟨v, hv⟩ := Option.isSome_iff_exists.mp hA
        rw [hv]
        rfl
      · rw [if_neg hq]
    · rw [if_neg hA, ih, lookupA_append, firstOf_assoc]
      congr 1
      by_cases hq : p = q
      · rw [lookupA_cons, lookupA_cons, if_pos hq, if_pos hq]
        rfl
      · rw [lookupA_cons, lookupA_cons, if_neg hq, if_neg hq]
        rfl

theorem aggregate_social (http : String → Option (Nat × String))
    (socialEx : String → List (String × String)) :
    ∀ (links : List String) (acc : ContactInfo) (q : String),
      lookupA (WebsiteAnalyzer.aggregate http socialEx links acc).social_media q =
        firstOf (lookupA acc.social_media q)
          (firstSome (links.map fun l =>
            lookupA (WebsiteAnalyzer.analyze_contact_page http socialEx l).social_media q)) := by
  intro links
  induction links with
  | nil =>
    intro acc q
    rw [show WebsiteAnalyzer.aggregate http socialEx [] acc = acc from rfl]
    exact (firstOf_none_right _).symm
  | cons l ls ih =>
    intro acc q
    rw [show WebsiteAnalyzer.aggregate http socialEx (l :: ls) acc =
      WebsiteAnalyzer.aggregate http socialEx ls
        (WebsiteAnalyzer.mergePage http socialEx acc l) from rfl]
    rw [ih, List.map_cons]
    rw [show (WebsiteAnalyzer.mergePage http socialEx acc l).social_media =
      WebsiteAnalyzer.mergeFirstWins acc.social_media
        (WebsiteAnalyzer.analyze_contact_page http socialEx l).social_media from rfl]
    rw [lookupA_mergeFirstWins, firstOf_assoc]
    rfl

theorem aggregate_mem_acc (http : String → Option (Nat × String))
    (socialEx : String → List (String × String)) (f : ContactInfo → List String)
    (hf : ∀ acc link, f (WebsiteAnalyzer.mergePage http socialEx acc link) =
      f acc ++ f (WebsiteAnalyzer.analyze_contact_page http socialEx link)) :
    ∀ (links : List String) (acc : ContactInfo) (e : String),
      e ∈ f acc → e ∈ f (WebsiteAnalyzer.aggregate http socialEx links acc) := by
  intro links
  induction links with
  | nil =>
    intro acc e he
    exact he
  | cons l ls ih =>
    intro acc e he
    rw [show WebsiteAnalyzer.aggregate http socialEx (l :: ls) acc =
      WebsiteAnalyzer.aggregate http socialEx ls
        (WebsiteAnalyzer.mergePage http socialEx acc l) from rfl]
    apply ih
    rw [hf]
    exact List.mem_append_left _ he

theorem aggregate_mem_page (http : String → Option (Nat × String))
    (socialEx : String → List (String × String)) (f : ContactInfo → List String)
    (hf : ∀ acc link, f (WebsiteAnalyzer.mergePage http socialEx acc link) =
      f acc ++ f (WebsiteAnalyzer.analyze_contact_page http socialEx link)) :
    ∀ (links : List String) (acc : ContactInfo) (l : String), l ∈ links →
      ∀ e ∈ f (WebsiteAnalyzer.analyze_contact_page http socialEx l),
        e ∈ f (WebsiteAnalyzer.aggregate http socialEx links acc) := by
  intro links
  induction links with
  | nil =>
    intro acc l hl
    cases hl
  | cons l' ls ih =>
    intro acc l hl e he
    rw [show WebsiteAnalyzer.aggregate http socialEx (l' :: ls) acc =
      WebsiteAnalyzer.aggregate http socialEx ls
        (WebsiteAnalyzer.mergePage http socialEx acc l') from rfl]
    rcases List.mem_cons.mp hl with rfl | hl'
    · apply aggregate_mem_acc http socialEx f hf
      rw [hf]
      exact List.mem_append_right _ he
    · exact ih _ l hl' e he

/-- C8: every record produced by `analyze_website` satisfies the record
invariant: no duplicate emails, no duplicate phone entries after
normalization (normalization is applied before the final
deduplication, so differently formatted but numerically equal phones
collapse), and the social map associates each platform with the handle
of the earliest page (root first, then contact pages in discovery
order) that reported it, never overwritten by a later page. -/
theorem claim_c8 :
    ∀ (http : String → Option (Nat × String)) (findC : String → String → List String)
      (socialEx : String → List (String × String)) (url : String) (r : ContactInfo),
      WebsiteAnalyzer.analyze_website http findC socialEx url = some r →
      r.emails.Nodup ∧ r.phone_numbers.Nodup ∧
      (∀ q, lookupA r.social_media q =
        firstSome ((WebsiteAnalyzer.socialPages http findC socialEx url).map
          (fun s => lookupA s q))) := by
  intro http findC socialEx url r hr
  unfold WebsiteAnalyzer.analyze_website at hr
  by_cases hurl : url = ""
  · rw [if_pos hurl] at hr
    cases hr
  · rw [if_neg hurl] at hr
    cases hroot : WebsiteAnalyzer.make_request http url with
    | none =>
      simp only [hroot] at hr
      injection hr with hr'
      subst hr'
      refine ⟨List.nodup_nil, List.nodup_nil, fun q => ?_⟩
      unfold WebsiteAnalyzer.socialPages
      rw [hroot]
      rfl
    | some text =>
      simp only [hroot] at hr
      injection hr with hr'
      subst hr'
      refine ⟨List.nodup_dedup _, List.nodup_dedup _, fun q => ?_⟩
      unfold WebsiteAnalyzer.socialPages
      rw [hroot]
      show lookupA (WebsiteAnalyzer.aggregate http socialEx ((findC url text).take 3)
        ⟨WebsiteAnalyzer.extract_emails text, WebsiteAnalyzer.extract_phone_numbers text,
          WebsiteAnalyzer.mergeFirstWins [] (socialEx text)⟩).social_media q = _
      rw [aggregate_social]
      rw [show (⟨WebsiteAnalyzer.extract_emails text, WebsiteAnalyzer.extract_phone_numbers text,
        WebsiteAnalyzer.mergeFirstWins [] (socialEx text)⟩ : ContactInfo).social_media =
        WebsiteAnalyzer.mergeFirstWins [] (socialEx text) from rfl]
      rw [lookupA_mergeFirstWins]
      rw [show lookupA [] q = none from rfl]
      rw [show firstOf none (lookupA (socialEx text) q) = lookupA (socialEx text) q from rfl]
      rw [List.map_cons, List.map_map]
      rfl

/-- C9 (amended): inside `analyze_website`, a fetched response yields
the page body exactly when its status code is 200 (any other status —
including other 2xx codes — a timeout, or a transport error is
converted into no content for that page); a page with no content
contributes nothing, while every successfully fetched page's extracted
emails and normalized phones are retained in the final record
regardless of other pages' failures. -/
theorem claim_c9 :
    (∀ (http : String → Option (Nat × String)) (url : String) (status : Nat) (body : String),
      http url = some (status, body) → status = 200 →
      WebsiteAnalyzer.make_request http url = some body) ∧
    (∀ (http : String → Option (Nat × String)) (url : String) (status : Nat) (body : String),
      http url = some (status, body) → status ≠ 200 →
      WebsiteAnalyzer.make_request http url = none) ∧
    (∀ (http : String → Option (Nat × String)) (url : String),
      http url = none → WebsiteAnalyzer.make_request http url = none) ∧
    (∀ (http : String → Option (Nat × String)) (findC : String → String → List String)
        (socialEx : String → List (String × String)) (url text : String) (r : ContactInfo),
      WebsiteAnalyzer.analyze_website http findC socialEx url = some r →
      WebsiteAnalyzer.make_request http url = some text →
      (∀ e ∈ WebsiteAnalyzer.extract_emails text, e ∈ r.emails) ∧
      (∀ p ∈ WebsiteAnalyzer.extract_phone_numbers text,
        WebsiteAnalyzer.format_phone_number p ∈ r.phone_numbers) ∧
      (∀ link ∈ (findC url text).take 3, ∀ body : String,
        WebsiteAnalyzer.make_request http link = some body →
        (∀ e ∈ WebsiteAnalyzer.extract_emails body, e ∈ r.emails) ∧
        (∀ p ∈ WebsiteAnalyzer.extract_phone_numbers body,
          WebsiteAnalyzer.format_phone_number p ∈ r.phone_numbers))) := by
  refine ⟨fun http url status body h hs => ?_, fun http url status body h hs => ?_,
    fun http url h => ?_, fun http findC socialEx url text r hr hroot => ?_⟩
  · unfold WebsiteAnalyzer.make_request
    simp only [h]
    rw [if_pos hs]
  · unfold WebsiteAnalyzer.make_request
    simp only [h]
    rw [if_neg hs]
  · unfold WebsiteAnalyzer.make_request
    simp only [h]
  · have hurl : ¬ url = "" := by
      intro h
      rw [h] at hr
      unfold WebsiteAnalyzer.analyze_website at hr
      rw [if_pos rfl] at hr
      cases hr
    unfold WebsiteAnalyzer.analyze_website at hr
    rw [if_neg hurl] at hr
    simp only [hroot] at hr
    injection hr with hr'
    subst hr'
    refine ⟨fun e he => ?_, fun p hp => ?_, fun link hlink body hbody => ⟨fun e he => ?_,
      fun p hp => ?_⟩⟩
    · apply List.mem_dedup.mpr
      exact aggregate_mem_acc http socialEx (fun ci => ci.emails) (fun acc l => rfl) _ _ e he
    · apply List.mem_dedup.mpr
      apply List.mem_map_of_mem
      exact aggregate_mem_acc http socialEx (fun ci => ci.phone_numbers) (fun acc l => rfl)
        _ _ p hp
    · apply List.mem_dedup.mpr
      apply aggregate_mem_page http socialEx (fun ci => ci.emails) (fun acc l => rfl)
        _ _ link hlink
      unfold WebsiteAnalyzer.analyze_contact_page
      simp only [hbody]
      exact he
    · apply List.mem_dedup.mpr
      apply List.mem_map_of_mem
      apply aggregate_mem_page http socialEx (fun ci => ci.phone_numbers) (fun acc l => rfl)
        _ _ link hlink
      unfold WebsiteAnalyzer.analyze_contact_page
      simp only [hbody]
      exact hp

/-- C9 as originally stated is false: `_make_request` accepts only
status code 200, not every 2xx status; a 204 response with a body is
converted into no content. -/
theorem claim_c9_counterexample :
    200 ≤ 204 ∧ 204 < 300 ∧
    WebsiteAnalyzer.make_request (fun _ => some (204, "hello")) "https://acme.com" = none ∧
    WebsiteAnalyzer.make_request (fun _ => some (204, "hello")) "https://acme.com" ≠
      some "hello" := by
  refine ⟨by norm_num, by norm_num, by decide, by decide⟩

theorem claim_c9_witness :
    WebsiteAnalyzer.make_request (fun _ => some ((200 : Nat), "ok")) "https://x.com" =
      some "ok" ∧
    WebsiteAnalyzer.make_request (fun _ => some ((404 : Nat), "ok")) "https://x.com" = none ∧
    WebsiteAnalyzer.make_request (fun _ => (none : Option (Nat × String))) "https://x.com" =
      none ∧
    ("a@x.com" : String) ∈ (["a@x.com", "b@x.com"] : List String) ∧
    ("b@x.com" : String) ∈ (["a@x.com", "b@x.com"] : List String) := by
  have hr : WebsiteAnalyzer.analyze_website
      (fun u => if u = "https://x.com" then some ((200 : Nat), "a@x.com hello")
        else if u = "https://x.com/about" then some ((200 : Nat), "b@x.com") else none)
      (fun _ _ => ["https://x.com/contact", "https://x.com/about"]) (fun _ => [])
      "https://x.com" = some ⟨["a@x.com", "b@x.com"], [], []⟩ := by decide
  have hroot : WebsiteAnalyzer.make_request
      (fun u => if u = "https://x.com" then some ((200 : Nat), "a@x.com hello")
        else if u = "https://x.com/about" then some ((200 : Nat), "b@x.com") else none)
      "https://x.com" = some "a@x.com hello" := by decide
  have h4 := claim_c9.2.2.2
    (fun u => if u = "https://x.com" then some ((200 : Nat), "a@x.com hello")
      else if u = "https://x.com/about" then some ((200 : Nat), "b@x.com") else none)
    (fun _ _ => ["https://x.com/contact", "https://x.com/about"]) (fun _ => [])
    "https://x.com" "a@x.com hello" ⟨["a@x.com", "b@x.com"], [], []⟩ hr hroot
  refine ⟨claim_c9.1 _ "https://x.com" 200 "ok" rfl rfl,
    claim_c9.2.1 _ "https://x.com" 404 "ok" rfl (by decide),
    claim_c9.2.2.1 _ "https://x.com" rfl, ?_, ?_⟩
  · exact h4.1 "a@x.com" (by decide)
  · exact (h4.2.2 "https://x.com/about" (by decide) "b@x.com" (by decide)).1 "b@x.com" (by decide)

theorem claim_c8_witness :
    ∃ r : ContactInfo,
      WebsiteAnalyzer.analyze_website
        (fun u => if u = "https://acme.com" then
            some ((200 : Nat), "a@corp.com (555) 123-4567")
          else if u = "https://acme.com/contact" then
            some ((200 : Nat), "555.123.4567 b@corp.com")
          else none)
        (fun _ _ => ["https://acme.com/contact"])
        (fun t => if t = "a@corp.com (555) 123-4567" then [("twitter", "acmehq")]
          else [("twitter", "other"), ("facebook", "acmefb")])
        "https://acme.com" = some r ∧
      r.phone_numbers = ["(555) 123-4567"] ∧
      lookupA r.social_media "twitter" = some "acmehq" ∧
      lookupA r.social_media "facebook" = some "acmefb" ∧
      r.emails.Nodup ∧ r.phone_numbers.Nodup := by
  have hr : WebsiteAnalyzer.analyze_website
      (fun u => if u = "https://acme.com" then
          some ((200 : Nat), "a@corp.com (555) 123-4567")
        else if u = "https://acme.com/contact" then
          some ((200 : Nat), "555.123.4567 b@corp.com")
        else none)
      (fun _ _ => ["https://acme.com/contact"])
      (fun t => if t = "a@corp.com (555) 123-4567" then [("twitter", "acmehq")]
        else [("twitter", "other"), ("facebook", "acmefb")])
      "https://acme.com" =
      some ⟨["a@corp.com", "b@corp.com"], ["(555) 123-4567"],
        [("twitter", "acmehq"), ("facebook", "acmefb")]⟩ := by decide
  have h := claim_c8 _ _ _ _ _ hr
  exact ⟨_, hr, by decide, by decide, by decide, h.1, h.2.1⟩
